import Mathlib

/-!
Verification of the arbitrage-bot core: order-book state machine, fee model,
walk-the-book fill simulator, opportunity detection, delay-mode backtester and
the live two-leg execution coordinator.  Order books are embedded as sorted
association lists over exact rationals (the replay engine's `SortedDict`) and
as insertion-ordered association lists (the live engine's `dict`).  Where a
property turns on IEEE-754 double rounding, a binary64 rounding model over the
rationals is used.
-/

namespace Arb

/-- The replay engine's removal epsilon `1e-9`. -/
def eps : ℚ := 1 / 1000000000

/-! ### Sorted association lists: the model of `sortedcontainers.SortedDict` -/

/-- `SortedDict.__setitem__`: insert or replace a key, keeping keys ascending. -/
def setK (k v : ℚ) : List (ℚ × ℚ) → List (ℚ × ℚ)
  | [] => [(k, v)]
  | (k0, v0) :: t =>
    if k < k0 then (k, v) :: (k0, v0) :: t
    else if k = k0 then (k, v) :: t
    else (k0, v0) :: setK k v t

/-- `del d[k]`: remove the entry with key `k` (a dict holds it at most once). -/
def delK (k : ℚ) : List (ℚ × ℚ) → List (ℚ × ℚ)
  | [] => []
  | e :: t => if e.1 = k then delK k t else e :: delK k t

/-- `d.get(k)`: first-match association lookup. -/
def getK (k : ℚ) : List (ℚ × ℚ) → Option ℚ
  | [] => none
  | (k0, v0) :: t => if k = k0 then some v0 else getK k t

/-- `d.get(k, 0)`. -/
def getKD (k : ℚ) (l : List (ℚ × ℚ)) : ℚ := (getK k l).getD 0

/-- A side of the book, the `side` string argument of `_update_book_level`. -/
inductive Side
  | bid
  | ask
deriving DecidableEq

/-! ### The replay engine's order book (`replay_v2.py`, class `OrderBook`)

Bids are stored under negated prices so that the smallest key is the highest
bid, exactly as in the source; asks are stored under the price itself. -/

structure RBook where
  marketId : String
  bids : List (ℚ × ℚ)
  asks : List (ℚ × ℚ)
deriving DecidableEq

/-- `OrderBook._update_book_level` of `replay_v2.py`: store when `size > 1e-9`,
otherwise delete the level if present. -/
def RBook.update_book_level (b : RBook) (side : Side) (price size : ℚ) : RBook :=
  match side with
  | .bid =>
    if size > eps then { b with bids := setK (-price) size b.bids }
    else { b with bids := delK (-price) b.bids }
  | .ask =>
    if size > eps then { b with asks := setK price size b.asks }
    else { b with asks := delK price b.asks }

/-- The `bids` property: `(-price, size)` pairs, highest price first. -/
def RBook.bidsView (b : RBook) : List (ℚ × ℚ) :=
  b.bids.map (fun e => (-e.1, e.2))

/-- The `highest_bid` property. -/
def RBook.highest_bid (b : RBook) : Option ℚ :=
  b.bids.head?.map (fun e => -e.1)

/-- The `lowest_ask` property. -/
def RBook.lowest_ask (b : RBook) : Option ℚ :=
  b.asks.head?.map (fun e => e.1)

/-- A fresh `OrderBook(market_id)`. -/
def RBook.empty (id : String) : RBook := ⟨id, [], []⟩

/-! ### Walking the book (`execute_trade_on_book`) -/

/-- The loop of `execute_trade_on_book`: consume the stored levels in order,
accumulating `(total_cost, size_executed)` and rebuilding the stored side.
`toPrice` recovers the quoted price from the stored key (identity for asks,
negation for bids). -/
def walkGo (toPrice : ℚ → ℚ) : ℚ → List (ℚ × ℚ) → ℚ × ℚ × List (ℚ × ℚ)
  | _, [] => (0, 0, [])
  | remaining, (k, avail) :: rest =>
    if remaining ≤ eps then (0, 0, (k, avail) :: rest)
    else
      let take := min remaining avail
      let r := walkGo toPrice (remaining - take) rest
      if avail - take > eps then
        (take * toPrice k + r.1, take + r.2.1, (k, avail - take) :: r.2.2)
      else
        (take * toPrice k + r.1, take + r.2.1, r.2.2)

/-- `execute_trade_on_book(book, side_to_hit, size_to_trade)` of `replay_v2.py`:
returns `((avg_price, size_executed), mutated book)`. -/
def execute_trade_on_book (b : RBook) (side_to_hit : Side) (size_to_trade : ℚ) :
    (ℚ × ℚ) × RBook :=
  if size_to_trade ≤ 0 then ((0, 0), b)
  else
    match side_to_hit with
    | .ask =>
      let r := walkGo (fun k => k) size_to_trade b.asks
      ((if r.2.1 > 0 then r.1 / r.2.1 else 0, r.2.1), { b with asks := r.2.2 })
    | .bid =>
      let r := walkGo (fun k => -k) size_to_trade b.bids
      ((if r.2.1 > 0 then r.1 / r.2.1 else 0, r.2.1), { b with bids := r.2.2 })

/-! ### Fee model (`fees.py` / `replay_v2.py`, `calculate_kalshi_fee`) -/

/-- `calculate_kalshi_fee` read over exact rational arithmetic. -/
def calculate_kalshi_fee (trade_size price : ℚ) : ℚ :=
  if trade_size ≤ 0 ∨ price ≤ 0 ∨ price ≥ 1 then 0
  else (⌈7 / 100 * trade_size * price * (1 - price) * 100⌉ : ℚ) / 100

/-! ### IEEE-754 binary64 rounding over ℚ

The source computes the fee in Python floats.  `round64` rounds a rational to
the nearest double value (round-to-nearest, ties-to-even), exact for the
normal range used here. -/

/-- Round to the nearest integer, ties to even. -/
def roundHalfEven (q : ℚ) : ℤ :=
  if q - ⌊q⌋ < 1 / 2 then ⌊q⌋
  else if 1 / 2 < q - ⌊q⌋ then ⌊q⌋ + 1
  else if ⌊q⌋ % 2 = 0 then ⌊q⌋ else ⌊q⌋ + 1

/-- Round a rational to the nearest binary64 value (normal range): keep 53
significant bits, ties to even.  `Int.log 2 m` is the floor of `log₂ m`. -/
def round64 (x : ℚ) : ℚ :=
  if x = 0 then 0
  else if x > 0 then
    (roundHalfEven (x / 2 ^ (Int.log 2 x - 52)) : ℚ) * 2 ^ (Int.log 2 x - 52)
  else
    -((roundHalfEven (-x / 2 ^ (Int.log 2 (-x) - 52)) : ℚ) * 2 ^ (Int.log 2 (-x) - 52))

/-- `calculate_kalshi_fee` with every floating-point operation of the source
performed in binary64: the literal `0.07`, the four products, the
subtraction, and the final division by `100.0`.  Arguments stand for the
double values of `trade_size` and `price`. -/
def calculate_kalshi_fee_float (trade_size price : ℚ) : ℚ :=
  if trade_size ≤ 0 ∨ price ≤ 0 ∨ price ≥ 1 then 0
  else
    let t1 := round64 (round64 (7 / 100) * trade_size)
    let t2 := round64 (t1 * price)
    let t3 := round64 (t2 * round64 (1 - price))
    let t4 := round64 (t3 * 100)
    round64 ((⌈t4⌉ : ℚ) / 100)

/-! ### The live engine's order book (`order_book.py`, class `OrderBook`)

A Python `dict` keyed by price: an insertion-ordered association list with
unique keys.  Setting an existing key keeps its position. -/

/-- `d[k] = v` on a Python dict. -/
def dictSet (k v : ℚ) : List (ℚ × ℚ) → List (ℚ × ℚ)
  | [] => [(k, v)]
  | (k0, v0) :: t => if k = k0 then (k, v) :: t else (k0, v0) :: dictSet k v t

structure LBook where
  marketId : String
  bids : List (ℚ × ℚ)
  asks : List (ℚ × ℚ)
  lastUpdated : Option ℤ
deriving DecidableEq

/-- `OrderBook._update_book_level` of `order_book.py`: remove the level when
`size <= 0`, otherwise store it. -/
def LBook.update_book_level (b : LBook) (side : Side) (price size : ℚ) : LBook :=
  match side with
  | .bid =>
    if size ≤ 0 then { b with bids := delK price b.bids }
    else { b with bids := dictSet price size b.bids }
  | .ask =>
    if size ≤ 0 then { b with asks := delK price b.asks }
    else { b with asks := dictSet price size b.asks }

/-- A fresh live `OrderBook(market_id)`. -/
def LBook.empty (id : String) : LBook := ⟨id, [], [], none⟩

/-! ### Venue messages -/

inductive KSide
  | yes
  | no
deriving DecidableEq

/-- A Kalshi order-book message: a full snapshot with `yes`/`no` arrays of
`(price_cents, size)`, or a delta `(price_cents, delta, side)`. -/
inductive KalshiMsg
  | snapshot (yes no : List (ℤ × ℚ))
  | delta (price_cents : ℤ) (delta : ℚ) (side : KSide)
deriving DecidableEq

inductive PSide
  | buy
  | sell
deriving DecidableEq

/-- A Polymarket message: a `book` snapshot or a list of absolute-size changes. -/
inductive PolyMsg
  | book (bids asks : List (ℚ × ℚ))
  | delta (changes : List (PSide × ℚ × ℚ))
deriving DecidableEq

/-- `round(x, 2)` of Python on an exact rational: half-to-even at two decimals. -/
def pyRound2 (x : ℚ) : ℚ := (roundHalfEven (x * 100) : ℚ) / 100

/-- `robust_update_kalshi_order_book` of `replay_v2.py`: `yes` quotes become
bids at `cents/100`; `no` quotes become asks at `round(1 - cents/100, 2)`;
deltas are added to the stored size of the target level. -/
def robust_update_kalshi_order_book (b : RBook) (m : KalshiMsg) : RBook :=
  match m with
  | .snapshot ys ns =>
    let b0 : RBook := { b with bids := [], asks := [] }
    let b1 := ys.foldl (fun bk lv => bk.update_book_level .bid ((lv.1 : ℚ) / 100) lv.2) b0
    ns.foldl (fun bk lv => bk.update_book_level .ask (pyRound2 (1 - (lv.1 : ℚ) / 100)) lv.2) b1
  | .delta pc d side =>
    match side with
    | .yes =>
      let price := (pc : ℚ) / 100
      b.update_book_level .bid price (getKD (-price) b.bids + d)
    | .no =>
      let ask_price := pyRound2 (1 - (pc : ℚ) / 100)
      b.update_book_level .ask ask_price (getKD ask_price b.asks + d)

/-- `robust_update_polymarket_order_book` of `replay_v2.py`. -/
def robust_update_polymarket_order_book (b : RBook) (m : PolyMsg) : RBook :=
  match m with
  | .book bs as_ =>
    let b0 : RBook := { b with bids := [], asks := [] }
    let b1 := bs.foldl (fun bk lv => bk.update_book_level .bid lv.1 lv.2) b0
    as_.foldl (fun bk lv => bk.update_book_level .ask lv.1 lv.2) b1
  | .delta cs =>
    cs.foldl
      (fun bk c =>
        bk.update_book_level (match c.1 with | .buy => Side.bid | .sell => Side.ask) c.2.1 c.2.2)
      b

/-- A raw Polymarket websocket payload as consumed by `polymarket/updates.py`. -/
structure PolyData where
  assetId : String
  timestamp : ℤ
  msg : PolyMsg
deriving DecidableEq

/-- `update_polymarket_order_book` of `polymarket/updates.py`: guarded by the
`asset_id` check, stamps `last_updated_timestamp`, then applies a snapshot
(clear and rebuild) or absolute-size level changes. -/
def update_polymarket_order_book (b : LBook) (d : PolyData) : LBook :=
  match d with
  | ⟨aid, ts, .book bs as_⟩ =>
    if b.marketId ≠ aid then b
    else
      as_.foldl (fun bk lv => bk.update_book_level .ask lv.1 lv.2)
        (bs.foldl (fun bk lv => bk.update_book_level .bid lv.1 lv.2)
          { b with lastUpdated := some ts, bids := [], asks := [] })
  | ⟨aid, ts, .delta cs⟩ =>
    if b.marketId ≠ aid then b
    else
      cs.foldl
        (fun bk c =>
          bk.update_book_level (match c.1 with | .buy => Side.bid | .sell => Side.ask) c.2.1
            c.2.2)
        { b with lastUpdated := some ts }

/-- A raw Kalshi websocket payload as consumed by `kalshi_updates.py`. -/
structure KalshiData where
  marketTicker : String
  seq : ℤ
  msg : KalshiMsg
deriving DecidableEq

/-- `update_kalshi_order_book` of `kalshi_updates.py`: `yes` levels become bids
at `cents/100` and `no` levels become asks at `cents/100` — this variant does
not convert `no` prices through `1 - price`; deltas are added to the stored
size at `cents/100` on the matching side. -/
def update_kalshi_order_book (b : LBook) (d : KalshiData) : LBook :=
  match d with
  | ⟨tick, sq, .snapshot ys ns⟩ =>
    if b.marketId ≠ tick then b
    else
      ns.foldl (fun bk lv => bk.update_book_level .ask ((lv.1 : ℚ) / 100) lv.2)
        (ys.foldl (fun bk lv => bk.update_book_level .bid ((lv.1 : ℚ) / 100) lv.2)
          { b with lastUpdated := some sq, bids := [], asks := [] })
  | ⟨tick, sq, .delta pc dl side⟩ =>
    if b.marketId ≠ tick then b
    else
      let b0 : LBook := { b with lastUpdated := some sq }
      match side with
      | .yes => b0.update_book_level .bid ((pc : ℚ) / 100) (getKD ((pc : ℚ) / 100) b0.bids + dl)
      | .no => b0.update_book_level .ask ((pc : ℚ) / 100) (getKD ((pc : ℚ) / 100) b0.asks + dl)

/-! ### Live execution coordinator (`trader.py`, `execute_complimentary_buy_trade`)

After both buy legs are joined, the reversal phase decides which compensating
orders to submit.  In the source both reversal submissions are wrapped in an
`if False:` block, which is kept verbatim here as `if false then`. -/

inductive Platform
  | polymarket
  | kalshi
deriving DecidableEq

/-- An order submission request as issued by the coordinator's reversal phase. -/
structure OrderReq where
  platform : Platform
  marketId : String
  isSell : Bool
  price : ℚ
  size : ℤ
deriving DecidableEq

/-- The reversal phase of `execute_complimentary_buy_trade`: given the join
results of the two buy legs, the list of compensating orders submitted. -/
def complimentary_reversal_orders (book1_platform : Platform) (book1_market_id : String)
    (book1_bid : ℚ) (book2_platform : Platform) (book2_market_id : String) (book2_bid : ℚ)
    (trade_size : ℤ) (success1 success2 : Bool) : List OrderReq :=
  if success1 && !success2 then
    if false then
      [match book1_platform with
       | .polymarket => ⟨.polymarket, book1_market_id, true, book1_bid, trade_size⟩
       | .kalshi => ⟨.kalshi, book1_market_id, true, book1_bid, trade_size⟩]
    else []
  else if !success1 && success2 then
    if false then
      [match book2_platform with
       | .polymarket => ⟨.polymarket, book2_market_id, true, book2_bid, trade_size⟩
       | .kalshi => ⟨.kalshi, book2_market_id, true, book2_bid, trade_size⟩]
    else []
  else []

/-! ### Same-outcome opportunity detection (`replay_v2.py`, `find_opportunities`)

Modelled for one canonical market with a Polymarket book `pb` and a Kalshi
book `kb`. -/

/-- The cross-outcome cap of `main_trader.py` (`MAX_TRADE_SIZE = 5`). -/
def MAX_TRADE_SIZE : ℚ := 5

/-- A detected same-outcome opportunity: buy direction, achievable size and
price spread. -/
structure Opp where
  buyIsKalshi : Bool
  size : ℚ
  spread : ℚ
deriving DecidableEq

/-- Stable insertion keeping spreads descending. -/
def insOpp (a : Opp) : List Opp → List Opp
  | [] => [a]
  | b :: t => if a.spread < b.spread then b :: insOpp a t else a :: b :: t

/-- `opportunities.sort(key=spread, reverse=True)`. -/
def sortOpps : List Opp → List Opp
  | [] => []
  | a :: t => insOpp a (sortOpps t)

/-- `find_opportunities` for one market pair: case 1 buys Polymarket and sells
Kalshi, case 2 buys Kalshi and sells Polymarket; the achievable size is the
minimum of the two best-level liquidities, and results are ordered by
descending spread. -/
def find_opportunities (pb kb : RBook) (threshold : ℚ) : List Opp :=
  let case1 : List Opp :=
    match pb.lowest_ask, kb.highest_bid with
    | some p_ask, some k_bid =>
      if k_bid - p_ask > threshold then
        let sz := min (getKD p_ask pb.asks) (getKD (-k_bid) kb.bids)
        if sz > 0 then [⟨false, sz, k_bid - p_ask⟩] else []
      else []
    | _, _ => []
  let case2 : List Opp :=
    match kb.lowest_ask, pb.highest_bid with
    | some k_ask, some p_bid =>
      if p_bid - k_ask > threshold then
        let sz := min (getKD k_ask kb.asks) (getKD (-p_bid) pb.bids)
        if sz > 0 then [⟨true, sz, p_bid - k_ask⟩] else []
      else []
    | _, _ => []
  sortOpps (case1 ++ case2)

/-! ### Backtest execution (`replay_v2.py`, `_execute_and_log_opportunity` and
the due-trade block of `run_delay_mode`) -/

/-- Walk both legs and settle: returns the mutated `(pb, kb)` and, when any
size filled, `(net_profit, actual_size, fees)`.  The books are walked before
profit is known. -/
def executeOpportunity (pb kb : RBook) (opp : Opp) : (RBook × RBook) × Option (ℚ × ℚ × ℚ) :=
  let buyBook := if opp.buyIsKalshi then kb else pb
  let sellBook := if opp.buyIsKalshi then pb else kb
  let rBuy := execute_trade_on_book buyBook .ask opp.size
  let rSell := execute_trade_on_book sellBook .bid opp.size
  let actual := min rBuy.1.2 rSell.1.2
  let books := if opp.buyIsKalshi then (rSell.2, rBuy.2) else (rBuy.2, rSell.2)
  if actual > 0 then
    let fees := if opp.buyIsKalshi then calculate_kalshi_fee actual rBuy.1.1
      else calculate_kalshi_fee actual rSell.1.1
    ((books.1, books.2), some ((rSell.1.1 - rBuy.1.1) * actual - fees, actual, fees))
  else ((books.1, books.2), none)

/-- `_execute_and_log_opportunity`: the trade is recorded (CSV row) only when
the recomputed net profit is positive; the mutated books are kept either way. -/
def execute_and_log_opportunity (pb kb : RBook) (opp : Opp) :
    (RBook × RBook) × Option (ℚ × ℚ × ℚ) :=
  match executeOpportunity pb kb opp with
  | (books, some r) => if r.1 > 0 then (books, some r) else (books, none)
  | (books, none) => (books, none)

/-! ### Delay-mode backtester (`replay_v2.py`, `run_delay_mode`) -/

/-- The per-delay aggregates `total_trades, total_profit, total_volume,
total_fees`. -/
structure Totals where
  trades : ℕ
  profit : ℚ
  volume : ℚ
  fees : ℚ
deriving DecidableEq

/-- Credit a due execution's outcome to the totals when its net profit is
positive. -/
def creditTrade (tot : Totals) (r : Option (ℚ × ℚ × ℚ)) : Totals :=
  match r with
  | some (net, sz, fee) =>
    if net > 0 then ⟨tot.trades + 1, tot.profit + net, tot.volume + sz, tot.fees + fee⟩ else tot
  | none => tot

/-- Simulation state of one delay run: the two books, the pending scheduled
trades (kept sorted by execution timestamp — the min-heap), and the totals. -/
structure DelayState where
  pb : RBook
  kb : RBook
  pending : List (ℤ × Opp)
  totals : Totals
deriving DecidableEq

/-- One parsed log line: a timestamp and a venue update. -/
inductive LogUpd
  | pm (m : PolyMsg)
  | ks (m : KalshiMsg)
deriving DecidableEq

structure LogEntry where
  ts : ℤ
  upd : LogUpd
deriving DecidableEq

/-- Apply a log entry's venue update to the books (`process_log_entry`). -/
def applyLogUpd (pb kb : RBook) : LogUpd → RBook × RBook
  | .pm m => (robust_update_polymarket_order_book pb m, kb)
  | .ks m => (pb, robust_update_kalshi_order_book kb m)

/-- `heapq.heappush`: insert keeping execution timestamps ascending. -/
def pushPending (e : ℤ × Opp) : List (ℤ × Opp) → List (ℤ × Opp)
  | [] => [e]
  | h :: t => if e.1 < h.1 then e :: h :: t else h :: pushPending e t

/-- The `while scheduled_trades and scheduled_trades[0][0] <= current_ts` loop:
pop and execute every due trade against the current books. -/
def execDue : List (ℤ × Opp) → ℤ → RBook → RBook → Totals →
    List (ℤ × Opp) × RBook × RBook × Totals
  | [], _, pb, kb, tot => ([], pb, kb, tot)
  | (t, opp) :: rest, ts, pb, kb, tot =>
    if t ≤ ts then
      let r := executeOpportunity pb kb opp
      execDue rest ts r.1.1 r.1.2 (creditTrade tot r.2)
    else ((t, opp) :: rest, pb, kb, tot)

/-- One iteration of the delay-mode main loop: execute due trades, apply the
log entry's update, then schedule only the best newly found opportunity at
`entry.ts + delay`. -/
def delayStep (delay : ℤ) (threshold : ℚ) (st : DelayState) (e : LogEntry) : DelayState :=
  let d := execDue st.pending e.ts st.pb st.kb st.totals
  let bks := applyLogUpd d.2.1 d.2.2.1 e.upd
  let opps := find_opportunities bks.1 bks.2 threshold
  let pending' :=
    match opps with
    | [] => d.1
    | best :: _ => pushPending (e.ts + delay, best) d.1
  ⟨bks.1, bks.2, pending', d.2.2.2⟩

/-- The whole replay at one delay value; scheduled trades still pending when
the log ends are dropped. -/
def runDelay (delay : ℤ) (threshold : ℚ) : DelayState → List LogEntry → DelayState
  | st, [] => st
  | st, e :: rest => runDelay delay threshold (delayStep delay threshold st e) rest


/-! ### Book-operation sequences for the invariant claims -/

/-- Any operation the replay engine ever performs on a book. -/
inductive BookOp
  | pm (m : PolyMsg)
  | ks (m : KalshiMsg)
  | walk (side : Side) (size : ℚ)

/-- Apply one operation. -/
def applyOp (b : RBook) : BookOp → RBook
  | .pm m => robust_update_polymarket_order_book b m
  | .ks m => robust_update_kalshi_order_book b m
  | .walk s sz => (execute_trade_on_book b s sz).2

/-- Apply a whole operation sequence, starting from a fresh book. -/
def applyOps (b : RBook) (ops : List BookOp) : RBook :=
  ops.foldl applyOp b

/-- Well-formedness of one stored side: keys strictly ascending and every
stored size above the removal epsilon. -/
def sideWF (l : List (ℚ × ℚ)) : Prop :=
  l.Pairwise (fun a b => a.1 < b.1) ∧ ∀ e ∈ l, eps < e.2

/-- Well-formedness of a replay book. -/
def RBook.WF (b : RBook) : Prop :=
  sideWF b.bids ∧ sideWF b.asks

/-! # Theorems -/

/-- Characterisation of `Int.log 2` at a positive rational. -/
theorem int_log2_eq {x : ℚ} (e : ℤ) (hx : 0 < x) (h1 : (2 : ℚ) ^ e ≤ x)
    (h2 : x < (2 : ℚ) ^ (e + 1)) : Int.log 2 x = e := by
  have ha : e ≤ Int.log 2 x := by
    rw [← Int.zpow_le_iff_le_log one_lt_two hx]
    exact_mod_cast h1
  have hc : Int.log 2 x < e + 1 := by
    rw [← Int.lt_zpow_iff_log_lt one_lt_two hx]
    exact_mod_cast h2
  omega

/-- Evaluation rule for `round64` at a positive rational whose binade is known. -/
theorem r64_eval (x y : ℚ) (e : ℤ) (hx : 0 < x) (h1 : (2 : ℚ) ^ e ≤ x)
    (h2 : x < (2 : ℚ) ^ (e + 1))
    (hy : (roundHalfEven (x / 2 ^ (e - 52)) : ℚ) * 2 ^ (e - 52) = y) :
    round64 x = y := by
  rw [round64, if_neg (ne_of_gt hx), if_pos hx, int_log2_eq e hx h1 h2, hy]

/-! Binary64 evaluation of the fee chain at `trade_size = 100`, `price = 0.5`,
following the source's operation order `0.07 * size * price * (1-price) * 100`. -/

theorem r64_c07 : round64 (7 / 100) = 5044031582654956 / 2 ^ 56 :=
  r64_eval _ _ (-4) (by norm_num) (by norm_num) (by norm_num) (by norm_num [roundHalfEven])

theorem r64_t1 : round64 (5044031582654956 / 2 ^ 56 * 100) = 7881299347898369 / 2 ^ 50 :=
  r64_eval _ _ 2 (by norm_num) (by norm_num) (by norm_num) (by norm_num [roundHalfEven])

theorem r64_t2 : round64 (7881299347898369 / 2 ^ 50 * (1 / 2)) = 7881299347898369 / 2 ^ 51 :=
  r64_eval _ _ 1 (by norm_num) (by norm_num) (by norm_num) (by norm_num [roundHalfEven])

theorem r64_half : round64 (1 - 1 / 2) = 1 / 2 :=
  r64_eval _ _ (-1) (by norm_num) (by norm_num) (by norm_num) (by norm_num [roundHalfEven])

theorem r64_t3 : round64 (7881299347898369 / 2 ^ 51 * (1 / 2)) = 7881299347898369 / 2 ^ 52 :=
  r64_eval _ _ 0 (by norm_num) (by norm_num) (by norm_num) (by norm_num [roundHalfEven])

theorem r64_t4 : round64 (7881299347898369 / 2 ^ 52 * 100) = 6157265115545601 / 2 ^ 45 :=
  r64_eval _ _ 7 (by norm_num) (by norm_num) (by norm_num) (by norm_num [roundHalfEven])

theorem r64_fin : round64 (176 / 100) = 7926335344172073 / 2 ^ 52 :=
  r64_eval _ _ 0 (by norm_num) (by norm_num) (by norm_num) (by norm_num [roundHalfEven])

/-- The double actually returned by `calculate_kalshi_fee(100, 0.5)`: the float
product is `175.00000000000003`, whose ceiling is `176` cents. -/
theorem fee_float_eval :
    calculate_kalshi_fee_float 100 (1 / 2) = 7926335344172073 / 2 ^ 52 := by
  rw [calculate_kalshi_fee_float, if_neg (by norm_num)]
  simp only [r64_c07, r64_t1, r64_t2, r64_half, r64_t3, r64_t4]
  have hc : ⌈(6157265115545601 : ℚ) / 2 ^ 45⌉ = (176 : ℤ) := by
    rw [Int.ceil_eq_iff]
    norm_num
  rw [hc, show ((176 : ℤ) : ℚ) = 176 from by norm_num, r64_fin]


/-! ### Association-list lemmas -/

theorem getK_nil (k : ℚ) : getK k [] = none := rfl

theorem getK_cons (k a b : ℚ) (t : List (ℚ × ℚ)) :
    getK k ((a, b) :: t) = if k = a then some b else getK k t := rfl

theorem setK_nil (k v : ℚ) : setK k v [] = [(k, v)] := rfl

theorem setK_cons (k v a b : ℚ) (t : List (ℚ × ℚ)) :
    setK k v ((a, b) :: t) =
      if k < a then (k, v) :: (a, b) :: t
      else if k = a then (k, v) :: t
      else (a, b) :: setK k v t := rfl

theorem delK_nil (k : ℚ) : delK k [] = [] := rfl

theorem delK_cons (k a b : ℚ) (t : List (ℚ × ℚ)) :
    delK k ((a, b) :: t) = if a = k then delK k t else (a, b) :: delK k t := rfl

theorem getK_setK_self (k v : ℚ) (l : List (ℚ × ℚ)) : getK k (setK k v l) = some v := by
  induction l with
  | nil => simp [setK_nil, getK_cons]
  | cons e t ih =>
    obtain ⟨k0, v0⟩ := e
    rw [setK_cons]
    by_cases h1 : k < k0
    · simp [h1, getK_cons]
    · by_cases h2 : k = k0
      · simp [h1, h2, getK_cons]
      · simp [h1, h2, getK_cons, ih]

theorem getK_setK_ne {k k' : ℚ} (v : ℚ) (l : List (ℚ × ℚ)) (h : k' ≠ k) :
    getK k' (setK k v l) = getK k' l := by
  induction l with
  | nil => simp [setK_nil, getK_cons, getK_nil, h]
  | cons e t ih =>
    obtain ⟨k0, v0⟩ := e
    rw [setK_cons]
    by_cases h1 : k < k0
    · simp [h1, getK_cons, h]
    · by_cases h2 : k = k0
      · subst h2
        simp [h1, getK_cons, h]
      · simp [h1, h2, getK_cons, ih]

theorem getK_delK_self (k : ℚ) (l : List (ℚ × ℚ)) : getK k (delK k l) = none := by
  induction l with
  | nil => rfl
  | cons e t ih =>
    obtain ⟨k0, v0⟩ := e
    rw [delK_cons]
    by_cases h1 : k0 = k
    · simp [h1, ih]
    · simp [h1, getK_cons, Ne.symm h1, ih]

theorem getK_delK_ne {k k' : ℚ} (l : List (ℚ × ℚ)) (h : k' ≠ k) :
    getK k' (delK k l) = getK k' l := by
  induction l with
  | nil => rfl
  | cons e t ih =>
    obtain ⟨k0, v0⟩ := e
    rw [delK_cons]
    by_cases h1 : k0 = k
    · subst h1
      rw [if_pos rfl, ih, getK_cons, if_neg h]
    · rw [if_neg h1, getK_cons, getK_cons]
      by_cases h2 : k' = k0 <;> simp [h2, ih]

/-! ### Claim C1 -/

/-- C1: in the live execution coordinator, after the two buy legs are joined,
the claim says a compensating sell order is submitted when exactly one leg
succeeded.  In the source both reversal submissions sit inside an `if False:`
block, so the reversal phase submits no order for any combination of leg
outcomes — in particular none when exactly one leg succeeded. -/
theorem c1_reversal_orders_always_empty (p1 : Platform) (m1 : String) (b1 : ℚ)
    (p2 : Platform) (m2 : String) (b2 : ℚ) (sz : ℤ) (s1 s2 : Bool) :
    complimentary_reversal_orders p1 m1 b1 p2 m2 b2 sz s1 s2 = [] := by
  cases s1 <;> cases s2 <;> simp [complimentary_reversal_orders]

/-! ### Claim C3 -/

/-- C3: the claimed fee `ceil(0.07*size*price*(1-price)*100)/100` gives `1.75`
at `size = 100, price = 0.5` under exact arithmetic, but the code evaluates the
product in binary64 floats, obtaining `175.00000000000003`, whose ceiling is
`176` cents: the function returns `1.76`, not `1.75`. -/
theorem c3_fee_float_returns_176_cents :
    calculate_kalshi_fee 100 (1 / 2) = 175 / 100 ∧
    calculate_kalshi_fee_float 100 (1 / 2) = 7926335344172073 / 2 ^ 52 ∧
    calculate_kalshi_fee_float 100 (1 / 2) ≠ 175 / 100 := by
  refine ⟨by norm_num [calculate_kalshi_fee], fee_float_eval, ?_⟩
  rw [fee_float_eval]
  norm_num

/-! ### Claim C4 -/

/-- C4: `walk('ask', 12)` against ask levels `[(0.40, 5), (0.41, 10)]` returns
average price `(5*0.40 + 7*0.41)/12` and filled size `12`, removes the fully
consumed level `0.40`, and leaves level `0.41` with remaining size `3`. -/
theorem c4_walk_example :
    execute_trade_on_book (RBook.mk "B" [] [(2/5, 5), (41/100, 10)]) .ask 12 =
      (((5 * (2/5) + 7 * (41/100)) / 12, 12), RBook.mk "B" [] [(41/100, 3)]) := by
  norm_num [execute_trade_on_book, walkGo, eps, min_def]

/-! ### Claim C8 -/

/-- C8 counterexample: in the live `OrderBook` (`order_book.py`) a level update
with size `1e-10 ≤ 1e-9` does not remove the level — the live book only removes
on `size <= 0`, so the claim fails on it. -/
theorem c8_live_book_keeps_tiny_size :
    (1 : ℚ) / 10000000000 ≤ eps ∧
    getK (1/2) ((LBook.empty "M").update_book_level .ask (1/2) (1/10000000000)).asks =
      some (1/10000000000) := by
  constructor
  · norm_num [eps]
  · norm_num [LBook.empty, LBook.update_book_level, dictSet, getK]

/-- C8 (amended): in the replay engine's book (`replay_v2.py`), updating a
level with any size at most `1e-9` removes that level, on either side. -/
theorem c8_replay_eps_removes (b : RBook) (p s : ℚ) (h : s ≤ eps) :
    getK (-p) ((b.update_book_level .bid p s)).bids = none ∧
    getK p ((b.update_book_level .ask p s)).asks = none := by
  constructor
  · rw [RBook.update_book_level]
    rw [if_neg (by exact not_lt.mpr h)]
    exact getK_delK_self _ _
  · rw [RBook.update_book_level]
    rw [if_neg (by exact not_lt.mpr h)]
    exact getK_delK_self _ _

/-- Witness for `c8_replay_eps_removes` at a concrete book and size. -/
theorem c8_replay_eps_removes_witness :
    (1 : ℚ) / 10000000000 ≤ eps ∧
    getK (1/2)
      (((RBook.mk "M" [] [(1/2, 4)]).update_book_level .ask (1/2) (1/10000000000))).asks =
      none :=
  ⟨by norm_num [eps],
   (c8_replay_eps_removes (RBook.mk "M" [] [(1/2, 4)]) (1/2) (1/10000000000)
      (by norm_num [eps])).2⟩

/-! ### Claim C10 -/

theorem fee_5_51 : calculate_kalshi_fee 5 (51/100) = 9 / 100 := by
  rw [calculate_kalshi_fee, if_neg (by norm_num)]
  rw [show (7 : ℚ) / 100 * 5 * (51/100) * (1 - 51/100) * 100 = 17493 / 2000 from by norm_num]
  rw [show ⌈(17493 : ℚ) / 2000⌉ = (9 : ℤ) from by rw [Int.ceil_eq_iff]; norm_num]
  norm_num

/-- C10: in the backtest executor the books are walked (liquidity consumed)
before the final net-profit check: at a detected opportunity whose recomputed
net profit is negative (spread 0.01 eaten by the 0.09 fee), no trade is
recorded, yet both books have lost the consumed levels. -/
theorem c10_unprofitable_attempt_still_consumes_books :
    find_opportunities (RBook.mk "P" [] [(1/2, 5)]) (RBook.mk "K" [(-(51/100), 5)] []) 0 =
      [Opp.mk false 5 (1/100)] ∧
    (execute_and_log_opportunity (RBook.mk "P" [] [(1/2, 5)])
        (RBook.mk "K" [(-(51/100), 5)] []) (Opp.mk false 5 (1/100))).2 = none ∧
    (execute_and_log_opportunity (RBook.mk "P" [] [(1/2, 5)])
        (RBook.mk "K" [(-(51/100), 5)] []) (Opp.mk false 5 (1/100))).1.1 =
      RBook.mk "P" [] [] ∧
    (execute_and_log_opportunity (RBook.mk "P" [] [(1/2, 5)])
        (RBook.mk "K" [(-(51/100), 5)] []) (Opp.mk false 5 (1/100))).1.2 =
      RBook.mk "K" [] [] ∧
    RBook.mk "P" ([] : List (ℚ × ℚ)) ([] : List (ℚ × ℚ)) ≠ RBook.mk "P" [] [(1/2, 5)] := by
  refine ⟨?_, ?_, ?_, ?_, by simp⟩
  · norm_num [find_opportunities, RBook.lowest_ask, RBook.highest_bid, getKD, getK_cons,
      sortOpps, insOpp, min_def]
  all_goals
    norm_num [execute_and_log_opportunity, executeOpportunity, execute_trade_on_book,
      walkGo, eps, min_def, fee_5_51]

/-! ### Claim C9 -/

theorem lupd_marketId (b : LBook) (sd : Side) (p v : ℚ) :
    (b.update_book_level sd p v).marketId = b.marketId := by
  cases sd <;> rw [LBook.update_book_level] <;> split <;> rfl

theorem rupd_marketId (b : RBook) (sd : Side) (p v : ℚ) :
    (b.update_book_level sd p v).marketId = b.marketId := by
  cases sd <;> rw [RBook.update_book_level] <;> split <;> rfl

theorem foldl_lupd_marketId {α : Type} (g : LBook → α → LBook)
    (hg : ∀ b a, (g b a).marketId = b.marketId) (l : List α) (b : LBook) :
    (l.foldl g b).marketId = b.marketId := by
  induction l generalizing b with
  | nil => rfl
  | cons a t ih => rw [List.foldl_cons]; exact (ih (g b a)).trans (hg b a)

theorem foldl_rupd_marketId {α : Type} (g : RBook → α → RBook)
    (hg : ∀ b a, (g b a).marketId = b.marketId) (l : List α) (b : RBook) :
    (l.foldl g b).marketId = b.marketId := by
  induction l generalizing b with
  | nil => rfl
  | cons a t ih => rw [List.foldl_cons]; exact (ih (g b a)).trans (hg b a)

theorem live_pm_snapshot_marketId (b : LBook) (aid : String) (ts : ℤ)
    (bs as : List (ℚ × ℚ)) :
    (update_polymarket_order_book b ⟨aid, ts, .book bs as⟩).marketId = b.marketId := by
  rw [update_polymarket_order_book]
  split
  · rfl
  · exact (foldl_lupd_marketId _ (fun b (a : ℚ × ℚ) => lupd_marketId b .ask a.1 a.2) _ _).trans
      ((foldl_lupd_marketId _ (fun b (a : ℚ × ℚ) => lupd_marketId b .bid a.1 a.2) _ _).trans rfl)

theorem robust_pm_snapshot_marketId (b : RBook) (bs as : List (ℚ × ℚ)) :
    (robust_update_polymarket_order_book b (.book bs as)).marketId = b.marketId := by
  rw [robust_update_polymarket_order_book]
  exact (foldl_rupd_marketId _ (fun b (a : ℚ × ℚ) => rupd_marketId b .ask a.1 a.2) _ _).trans
    ((foldl_rupd_marketId _ (fun b (a : ℚ × ℚ) => rupd_marketId b .bid a.1 a.2) _ _).trans rfl)

/-- C9: applying an identical Polymarket full-snapshot message twice leaves the
book (level contents, best bid/ask, timestamp) exactly as applying it once,
both for the live applier (`polymarket/updates.py`, guarded by `asset_id`) and
for the replay applier (`replay_v2.py`): a snapshot clears and rebuilds the
book from the message alone. -/
theorem c9_snapshot_idempotent (bL : LBook) (aid : String) (ts : ℤ)
    (bs as : List (ℚ × ℚ)) (bR : RBook) :
    update_polymarket_order_book (update_polymarket_order_book bL ⟨aid, ts, .book bs as⟩)
        ⟨aid, ts, .book bs as⟩ =
      update_polymarket_order_book bL ⟨aid, ts, .book bs as⟩ ∧
    robust_update_polymarket_order_book
        (robust_update_polymarket_order_book bR (.book bs as)) (.book bs as) =
      robust_update_polymarket_order_book bR (.book bs as) := by
  constructor
  · by_cases hg : bL.marketId = aid
    · have hin : (update_polymarket_order_book bL ⟨aid, ts, .book bs as⟩).marketId = aid :=
        (live_pm_snapshot_marketId bL aid ts bs as).trans hg
      conv_lhs => rw [update_polymarket_order_book]
      rw [if_neg (by simp [hin])]
      conv_rhs => rw [update_polymarket_order_book]
      rw [if_neg (by simp [hg])]
      simp only [hin, hg]
    · have hin : update_polymarket_order_book bL ⟨aid, ts, .book bs as⟩ = bL := by
        rw [update_polymarket_order_book, if_pos (by simp [hg])]
      rw [hin, hin]
  · have hmid : (robust_update_polymarket_order_book bR (.book bs as)).marketId =
        bR.marketId := robust_pm_snapshot_marketId bR bs as
    conv_lhs => rw [robust_update_polymarket_order_book]
    simp only [hmid]
    conv_rhs => rw [robust_update_polymarket_order_book]

/-! ### Claim C2 -/

/-- C2 counterexample: the applier in `kalshi_updates.py` stores a `no`-side
quote at `price_no` itself, not at `1 - price_no`: a `no` delta at 40 cents on
an empty book leaves no level at 0.60 and instead creates the ask 0.40. -/
theorem c2_legacy_applier_does_not_convert :
    getK (60/100)
      ((update_kalshi_order_book (LBook.empty "T") ⟨"T", 1, .delta 40 10 .no⟩)).asks = none ∧
    getK (40/100)
      ((update_kalshi_order_book (LBook.empty "T") ⟨"T", 1, .delta 40 10 .no⟩)).asks =
      some 10 := by
  constructor <;>
    norm_num [update_kalshi_order_book, LBook.empty, LBook.update_book_level, getKD,
      getK_nil, getK_cons, dictSet]

/-- C2 (amended), proved for the replay applier
(`robust_update_kalshi_order_book` in `replay_v2.py`): a `no`-side delta targets
the ask level at `round(1 - price_cents/100, 2)`, a `yes`-side delta targets the
bid level at `price_cents/100`, the signed `delta` is added to the existing
stored size (incremental), the level disappears when the new size is at most
the epsilon `1e-9` (in particular whenever it is not positive), all other
levels are untouched, and the opposite side is untouched; a `no` quote in a
snapshot is likewise booked at `round(1 - price_cents/100, 2)`. -/
theorem c2_replay_applier_converts_and_is_incremental (b : RBook) (pc : ℤ) (d : ℚ) :
    (getK (pyRound2 (1 - (pc : ℚ) / 100))
        (robust_update_kalshi_order_book b (.delta pc d .no)).asks =
      (if getKD (pyRound2 (1 - (pc : ℚ) / 100)) b.asks + d > eps then
        some (getKD (pyRound2 (1 - (pc : ℚ) / 100)) b.asks + d) else none)) ∧
    (∀ k, k ≠ pyRound2 (1 - (pc : ℚ) / 100) →
      getK k (robust_update_kalshi_order_book b (.delta pc d .no)).asks = getK k b.asks) ∧
    (robust_update_kalshi_order_book b (.delta pc d .no)).bids = b.bids ∧
    (getK (-((pc : ℚ) / 100))
        (robust_update_kalshi_order_book b (.delta pc d .yes)).bids =
      (if getKD (-((pc : ℚ) / 100)) b.bids + d > eps then
        some (getKD (-((pc : ℚ) / 100)) b.bids + d) else none)) ∧
    (∀ k, k ≠ -((pc : ℚ) / 100) →
      getK k (robust_update_kalshi_order_book b (.delta pc d .yes)).bids = getK k b.bids) ∧
    (robust_update_kalshi_order_book b (.delta pc d .yes)).asks = b.asks ∧
    (∀ sz, sz > eps →
      (robust_update_kalshi_order_book b (.snapshot [] [(pc, sz)])).asks =
        [(pyRound2 (1 - (pc : ℚ) / 100), sz)]) := by
  refine ⟨?_, ?_, ?_, ?_, ?_, ?_, ?_⟩
  · rw [robust_update_kalshi_order_book, RBook.update_book_level]
    split
    · rw [getK_setK_self]
    · rw [getK_delK_self]
  · intro k hk
    rw [robust_update_kalshi_order_book, RBook.update_book_level]
    split
    · exact getK_setK_ne _ _ hk
    · exact getK_delK_ne _ hk
  · rw [robust_update_kalshi_order_book, RBook.update_book_level]
    split <;> rfl
  · rw [robust_update_kalshi_order_book, RBook.update_book_level]
    split
    · rw [getK_setK_self]
    · rw [getK_delK_self]
  · intro k hk
    rw [robust_update_kalshi_order_book, RBook.update_book_level]
    split
    · exact getK_setK_ne _ _ hk
    · exact getK_delK_ne _ hk
  · rw [robust_update_kalshi_order_book, RBook.update_book_level]
    split <;> rfl
  · intro sz hsz
    rw [robust_update_kalshi_order_book]
    simp only [List.foldl_nil, List.foldl_cons]
    rw [RBook.update_book_level, if_pos hsz]
    rfl

/-- Witness for `c2_replay_applier_converts_and_is_incremental`: a `no` delta of
`+7` at 40 cents against a book holding ask `(0.60, 2)` yields ask `(0.60, 9)`,
leaves the ask at `0.55` and the bids alone. -/
theorem c2_replay_applier_witness :
    getK (pyRound2 (1 - ((40 : ℤ) : ℚ) / 100))
        (robust_update_kalshi_order_book
          (RBook.mk "K" [(-(1/2), 3)] [(11/20, 1), (60/100, 2)]) (.delta 40 7 .no)).asks =
      (if getKD (pyRound2 (1 - ((40 : ℤ) : ℚ) / 100))
            (RBook.mk "K" [(-(1/2), 3)] [(11/20, 1), (60/100, 2)]).asks + 7 > eps then
        some (getKD (pyRound2 (1 - ((40 : ℤ) : ℚ) / 100))
            (RBook.mk "K" [(-(1/2), 3)] [(11/20, 1), (60/100, 2)]).asks + 7) else none) ∧
    ((11 : ℚ)/20) ≠ pyRound2 (1 - ((40 : ℤ) : ℚ) / 100) ∧
    getK (11/20)
        (robust_update_kalshi_order_book
          (RBook.mk "K" [(-(1/2), 3)] [(11/20, 1), (60/100, 2)]) (.delta 40 7 .no)).asks =
      getK (11/20) (RBook.mk "K" [(-(1/2), 3)] [(11/20, 1), (60/100, 2)]).asks := by
  have h := c2_replay_applier_converts_and_is_incremental
    (RBook.mk "K" [(-(1/2), 3)] [(11/20, 1), (60/100, 2)]) 40 7
  have hne : ((11 : ℚ)/20) ≠ pyRound2 (1 - ((40 : ℤ) : ℚ) / 100) := by
    norm_num [pyRound2, roundHalfEven]
  exact ⟨h.1, hne, h.2.1 _ hne⟩

/-! ### Claim C5 -/

theorem mem_insOpp {x a : Opp} {l : List Opp} : x ∈ insOpp a l ↔ x = a ∨ x ∈ l := by
  induction l with
  | nil => simp [insOpp]
  | cons b t ih =>
    rw [insOpp]
    split
    · simp only [List.mem_cons, ih]
      tauto
    · simp [List.mem_cons]

theorem mem_sortOpps {x : Opp} : ∀ {l : List Opp}, x ∈ sortOpps l ↔ x ∈ l
  | [] => by simp [sortOpps]
  | a :: t => by rw [sortOpps, mem_insOpp, List.mem_cons, mem_sortOpps]

/-- C5 counterexample: the same-outcome detector of the backtester imposes no
maximum-trade-size cap: with a million contracts at the best ask and best bid,
the detected opportunity's size is one million, far above the configured
`MAX_TRADE_SIZE = 5` (which only the live cross-outcome path applies). -/
theorem c5_size_not_capped :
    find_opportunities (RBook.mk "P" [] [(2/5, 1000000)])
        (RBook.mk "K" [(-(9/20), 1000000)] []) 0 =
      [Opp.mk false 1000000 (1/20)] ∧
    MAX_TRADE_SIZE < (1000000 : ℚ) := by
  constructor
  · norm_num [find_opportunities, RBook.lowest_ask, RBook.highest_bid, getKD, getK_cons,
      sortOpps, insOpp, min_def]
  · norm_num [MAX_TRADE_SIZE]

/-- C5 (amended): every same-outcome opportunity produced by
`find_opportunities` has its achievable size equal to
`min(liquidity at the best ask, liquidity at the best bid)` of the two legs,
positive, with spread above the threshold — and no cap is applied. -/
theorem c5_size_is_min_of_best_liquidity (pb kb : RBook) (θ : ℚ) (o : Opp)
    (ho : o ∈ find_opportunities pb kb θ) :
    (o.buyIsKalshi = false →
       ∃ pa kbid, pb.lowest_ask = some pa ∧ kb.highest_bid = some kbid ∧
         o.spread = kbid - pa ∧ o.spread > θ ∧
         o.size = min (getKD pa pb.asks) (getKD (-kbid) kb.bids) ∧ 0 < o.size) ∧
    (o.buyIsKalshi = true →
       ∃ ka pbid, kb.lowest_ask = some ka ∧ pb.highest_bid = some pbid ∧
         o.spread = pbid - ka ∧ o.spread > θ ∧
         o.size = min (getKD ka kb.asks) (getKD (-pbid) pb.bids) ∧ 0 < o.size) := by
  simp only [find_opportunities] at ho
  rw [mem_sortOpps, List.mem_append] at ho
  rcases ho with ho | ho
  · rcases h1 : pb.lowest_ask with _ | pa
    · rw [h1] at ho; simp at ho
    · rcases h2 : kb.highest_bid with _ | kbid
      · rw [h1, h2] at ho; simp at ho
      · rw [h1, h2] at ho
        simp only [] at ho
        split_ifs at ho with hs hz
        · simp at ho
          subst ho
          exact ⟨fun _ => ⟨pa, kbid, rfl, rfl, rfl, hs, rfl, hz⟩, fun h => by simp at h⟩
        · simp at ho
        · simp at ho
  · rcases h1 : kb.lowest_ask with _ | ka
    · rw [h1] at ho; simp at ho
    · rcases h2 : pb.highest_bid with _ | pbid
      · rw [h1, h2] at ho; simp at ho
      · rw [h1, h2] at ho
        simp only [] at ho
        split_ifs at ho with hs hz
        · simp at ho
          subst ho
          exact ⟨fun h => by simp at h, fun _ => ⟨ka, pbid, rfl, rfl, rfl, hs, rfl, hz⟩⟩
        · simp at ho
        · simp at ho

/-- Witness for `c5_size_is_min_of_best_liquidity` at a concrete pair of books. -/
theorem c5_size_is_min_witness :
    Opp.mk false 3 (1/20) ∈
      find_opportunities (RBook.mk "P" [] [(2/5, 3)]) (RBook.mk "K" [(-(9/20), 7)] []) 0 ∧
    ∃ pa kbid, (RBook.mk "P" [] [(2/5, 3)]).lowest_ask = some pa ∧
      (RBook.mk "K" [(-(9/20), 7)] []).highest_bid = some kbid ∧
      (Opp.mk false 3 (1/20)).spread = kbid - pa ∧ (Opp.mk false 3 (1/20)).spread > 0 ∧
      (Opp.mk false 3 (1/20)).size =
        min (getKD pa (RBook.mk "P" [] [(2/5, 3)]).asks)
          (getKD (-kbid) (RBook.mk "K" [(-(9/20), 7)] []).bids) ∧
      0 < (Opp.mk false 3 (1/20)).size := by
  have hmem : Opp.mk false 3 (1/20) ∈
      find_opportunities (RBook.mk "P" [] [(2/5, 3)]) (RBook.mk "K" [(-(9/20), 7)] []) 0 := by
    norm_num [find_opportunities, RBook.lowest_ask, RBook.highest_bid, getKD, getK_cons,
      sortOpps, insOpp, min_def]
  exact ⟨hmem,
    (c5_size_is_min_of_best_liquidity (RBook.mk "P" [] [(2/5, 3)])
      (RBook.mk "K" [(-(9/20), 7)] []) 0 (Opp.mk false 3 (1/20)) hmem).1 rfl⟩

/-! ### Claim C7 -/

theorem mem_setK {e : ℚ × ℚ} {k v : ℚ} : ∀ {l : List (ℚ × ℚ)},
    e ∈ setK k v l → e = (k, v) ∨ e ∈ l
  | [], h => by simpa [setK_nil] using h
  | (k0, v0) :: t, h => by
    rw [setK_cons] at h
    split_ifs at h with h1 h2
    · simpa using h
    · rcases List.mem_cons.mp h with rfl | ht
      · exact Or.inl rfl
      · exact Or.inr (List.mem_cons_of_mem _ ht)
    · rcases List.mem_cons.mp h with rfl | ht
      · exact Or.inr (List.mem_cons_self _ _)
      · rcases mem_setK ht with he | he
        · exact Or.inl he
        · exact Or.inr (List.mem_cons_of_mem _ he)

theorem pairwise_setK {k v : ℚ} : ∀ {l : List (ℚ × ℚ)},
    l.Pairwise (fun a b => a.1 < b.1) → (setK k v l).Pairwise (fun a b => a.1 < b.1)
  | [], _ => by simp [setK_nil]
  | (k0, v0) :: t, h => by
    rcases List.pairwise_cons.mp h with ⟨ha, ht⟩
    rw [setK_cons]
    split_ifs with h1 h2
    · refine List.Pairwise.cons ?_ h
      intro b hb
      rcases List.mem_cons.mp hb with rfl | hbt
      · exact h1
      · exact h1.trans (ha b hbt)
    · refine List.Pairwise.cons ?_ ht
      intro b hb
      simpa [h2] using ha b hb
    · refine List.Pairwise.cons ?_ (pairwise_setK ht)
      intro b hb
      rcases mem_setK hb with rfl | hbt
      · exact lt_of_le_of_ne (not_lt.mp h1) (Ne.symm h2)
      · exact ha b hbt

theorem delK_sublist (k : ℚ) : ∀ l : List (ℚ × ℚ), List.Sublist (delK k l) l
  | [] => List.Sublist.refl []
  | e :: t => by
    rw [delK]
    split
    · exact (delK_sublist k t).cons e
    · exact (delK_sublist k t).cons₂ e

/-- Invariant preservation for one `_update_book_level` call on a side. -/
theorem sideWF_update {l : List (ℚ × ℚ)} (k v : ℚ) (h : sideWF l) :
    (if v > eps then sideWF (setK k v l) else sideWF (delK k l)) := by
  obtain ⟨hp, hv⟩ := h
  split
  · refine ⟨pairwise_setK hp, ?_⟩
    intro e he
    rcases mem_setK he with rfl | he
    · exact ‹v > eps›
    · exact hv e he
  · exact ⟨hp.sublist (delK_sublist k l), fun e he => hv e ((delK_sublist k l).subset he)⟩

theorem rupd_WF (b : RBook) (sd : Side) (p v : ℚ) (h : b.WF) :
    (b.update_book_level sd p v).WF := by
  obtain ⟨hb, ha⟩ := h
  have hbu := sideWF_update (-p) v hb
  have hau := sideWF_update p v ha
  cases sd <;> rw [RBook.update_book_level] <;> split <;> simp_all [RBook.WF]

theorem walkGo_keys_sublist (f : ℚ → ℚ) : ∀ (r : ℚ) (l : List (ℚ × ℚ)),
    List.Sublist (((walkGo f r l).2.2).map Prod.fst) (l.map Prod.fst)
  | _, [] => by simp [walkGo]
  | r, (k, avail) :: t => by
    rw [walkGo]
    split
    · simp
    · dsimp only
      split
      · simpa using (walkGo_keys_sublist f (r - min r avail) t).cons₂ k
      · simpa using (walkGo_keys_sublist f (r - min r avail) t).cons k

theorem walkGo_values (f : ℚ → ℚ) : ∀ (r : ℚ) (l : List (ℚ × ℚ)),
    (∀ e ∈ l, eps < e.2) → ∀ e ∈ (walkGo f r l).2.2, eps < e.2
  | _, [], _ => by simp [walkGo]
  | r, (k, avail) :: t, h => by
    rw [walkGo]
    split
    · exact h
    · have ht : ∀ e ∈ t, eps < e.2 := fun e he => h e (List.mem_cons_of_mem _ he)
      dsimp only
      split
      · intro e he
        rcases List.mem_cons.mp he with rfl | het
        · exact ‹avail - min r avail > eps›
        · exact walkGo_values f (r - min r avail) t ht e het
      · exact walkGo_values f (r - min r avail) t ht

theorem walkGo_pairwise (f : ℚ → ℚ) (r : ℚ) (l : List (ℚ × ℚ))
    (h : l.Pairwise (fun a b => a.1 < b.1)) :
    ((walkGo f r l).2.2).Pairwise (fun a b => a.1 < b.1) := by
  have h1 : (l.map Prod.fst).Pairwise (· < ·) := by
    rw [List.pairwise_map]
    exact h
  have h2 := h1.sublist (walkGo_keys_sublist f r l)
  rw [List.pairwise_map] at h2
  exact h2

theorem exec_WF (b : RBook) (sd : Side) (sz : ℚ) (h : b.WF) :
    ((execute_trade_on_book b sd sz).2).WF := by
  obtain ⟨hb, ha⟩ := h
  rw [execute_trade_on_book.eq_def]
  split
  · exact ⟨hb, ha⟩
  · cases sd
    · exact ⟨⟨walkGo_pairwise _ _ _ hb.1, walkGo_values _ _ _ hb.2⟩, ha⟩
    · exact ⟨hb, ⟨walkGo_pairwise _ _ _ ha.1, walkGo_values _ _ _ ha.2⟩⟩

theorem foldl_WF {α : Type} (g : RBook → α → RBook) (hg : ∀ b a, b.WF → (g b a).WF)
    (l : List α) (b : RBook) (h : b.WF) : (l.foldl g b).WF := by
  induction l generalizing b with
  | nil => exact h
  | cons a t ih => rw [List.foldl_cons]; exact ih _ (hg b a h)

theorem cleared_WF (b : RBook) : ({ b with bids := [], asks := [] } : RBook).WF :=
  ⟨⟨List.Pairwise.nil, by simp⟩, ⟨List.Pairwise.nil, by simp⟩⟩

theorem robust_pm_WF (b : RBook) (m : PolyMsg) (h : b.WF) :
    (robust_update_polymarket_order_book b m).WF := by
  cases m with
  | book bs as_ =>
    rw [robust_update_polymarket_order_book]
    exact foldl_WF _ (fun b (a : ℚ × ℚ) => rupd_WF b .ask a.1 a.2) _ _
      (foldl_WF _ (fun b (a : ℚ × ℚ) => rupd_WF b .bid a.1 a.2) _ _ (cleared_WF b))
  | delta cs =>
    rw [robust_update_polymarket_order_book]
    exact foldl_WF _ (fun b (c : PSide × ℚ × ℚ) => rupd_WF b _ c.2.1 c.2.2) _ _ h

theorem robust_ks_WF (b : RBook) (m : KalshiMsg) (h : b.WF) :
    (robust_update_kalshi_order_book b m).WF := by
  cases m with
  | snapshot ys ns =>
    rw [robust_update_kalshi_order_book]
    exact foldl_WF _ (fun b (a : ℤ × ℚ) => rupd_WF b .ask _ a.2) _ _
      (foldl_WF _ (fun b (a : ℤ × ℚ) => rupd_WF b .bid _ a.2) _ _ (cleared_WF b))
  | delta pc d sd =>
    cases sd <;> rw [robust_update_kalshi_order_book] <;> exact rupd_WF _ _ _ _ h

theorem applyOp_WF (b : RBook) (op : BookOp) (h : b.WF) : (applyOp b op).WF := by
  cases op with
  | pm m => exact robust_pm_WF b m h
  | ks m => exact robust_ks_WF b m h
  | walk sd sz => exact exec_WF b sd sz h

theorem applyOps_WF (ops : List BookOp) (b : RBook) (h : b.WF) : (applyOps b ops).WF := by
  induction ops generalizing b with
  | nil => exact h
  | cons op t ih => rw [applyOps, List.foldl_cons]; exact ih _ (applyOp_WF b op h)

theorem empty_WF (id : String) : (RBook.empty id).WF :=
  ⟨⟨List.Pairwise.nil, by simp [RBook.empty]⟩, ⟨List.Pairwise.nil, by simp [RBook.empty]⟩⟩

/-- C7: after any sequence of snapshots, deltas and walks starting from a fresh
replay book, every stored level on either side has size strictly above zero
(updates with non-positive — indeed up-to-epsilon — sizes remove the level),
the bids view is strictly descending in price and the asks strictly ascending;
and a crossed book (best bid above best ask) is reachable, so
`bestBid < bestAsk` is indeed not an invariant. -/
theorem c7_book_invariants (ops : List BookOp) :
    (∀ e ∈ (applyOps (RBook.empty "M") ops).bidsView, 0 < e.2) ∧
    (∀ e ∈ (applyOps (RBook.empty "M") ops).asks, 0 < e.2) ∧
    ((applyOps (RBook.empty "M") ops).bidsView).Pairwise (fun x y => y.1 < x.1) ∧
    ((applyOps (RBook.empty "M") ops).asks).Pairwise (fun x y => x.1 < y.1) ∧
    ∃ crossed : List BookOp,
      (applyOps (RBook.empty "M") crossed).highest_bid = some (3/5) ∧
      (applyOps (RBook.empty "M") crossed).lowest_ask = some (2/5) ∧
      (2 : ℚ) / 5 < 3 / 5 := by
  obtain ⟨⟨hbp, hbv⟩, ⟨hap, hav⟩⟩ := applyOps_WF ops (RBook.empty "M") (empty_WF "M")
  have heps : (0 : ℚ) < eps := by norm_num [eps]
  refine ⟨?_, ?_, ?_, ?_, ?_⟩
  · intro e he
    rw [RBook.bidsView, List.mem_map] at he
    obtain ⟨e0, he0, rfl⟩ := he
    exact heps.trans (hbv e0 he0)
  · exact fun e he => heps.trans (hav e he)
  · rw [RBook.bidsView, List.pairwise_map]
    exact hbp.imp (by intro a b h; simpa using h)
  · exact hap
  · refine ⟨[.pm (.book [(3/5, 7)] [(2/5, 4)])], ?_, ?_, by norm_num⟩ <;>
      norm_num [applyOps, applyOp, robust_update_polymarket_order_book,
        RBook.update_book_level, RBook.empty, RBook.highest_bid, RBook.lowest_ask,
        setK_nil, eps]

/-- Witness for `c7_book_invariants`: a concrete operation sequence and level. -/
theorem c7_book_invariants_witness :
    ((3 : ℚ)/5, (7 : ℚ)) ∈
      (applyOps (RBook.empty "M") [.pm (.book [(3/5, 7)] [(2/5, 4)])]).bidsView ∧
    (0 : ℚ) < 7 := by
  have hmem : ((3 : ℚ)/5, (7 : ℚ)) ∈
      (applyOps (RBook.empty "M") [.pm (.book [(3/5, 7)] [(2/5, 4)])]).bidsView := by
    norm_num [applyOps, applyOp, robust_update_polymarket_order_book,
      RBook.update_book_level, RBook.empty, RBook.bidsView, setK_nil, eps]
  exact ⟨hmem, (c7_book_invariants [.pm (.book [(3/5, 7)] [(2/5, 4)])]).1 _ hmem⟩

/-! ### Claim C6 -/

theorem mem_pushPending {x e : ℤ × Opp} : ∀ {l : List (ℤ × Opp)},
    x ∈ pushPending e l ↔ x = e ∨ x ∈ l
  | [] => by simp [pushPending]
  | h :: t => by
    rw [pushPending]
    split
    · simp [List.mem_cons]
    · rw [List.mem_cons, mem_pushPending, List.mem_cons]
      tauto

theorem pushPending_pairwise {e : ℤ × Opp} : ∀ {l : List (ℤ × Opp)},
    l.Pairwise (fun a b => a.1 ≤ b.1) → (pushPending e l).Pairwise (fun a b => a.1 ≤ b.1)
  | [], _ => by simp [pushPending]
  | hd :: t, hp => by
    rcases List.pairwise_cons.mp hp with ⟨hh, ht⟩
    rw [pushPending]
    split
    next hlt =>
      refine List.Pairwise.cons ?_ hp
      intro b hb
      rcases List.mem_cons.mp hb with rfl | hbt
      · exact le_of_lt hlt
      · exact (le_of_lt hlt).trans (hh b hbt)
    next hge =>
      refine List.Pairwise.cons ?_ (pushPending_pairwise ht)
      intro b hb
      rcases mem_pushPending.mp hb with rfl | hbt
      · exact not_lt.mp hge
      · exact hh b hbt

theorem execDue_pending_eq : ∀ (p : List (ℤ × Opp)) (ts : ℤ) (pb kb : RBook) (tot : Totals),
    (execDue p ts pb kb tot).1 = p.dropWhile (fun x => decide (x.1 ≤ ts))
  | [], _, _, _, _ => rfl
  | (t0, o0) :: t, ts, pb, kb, tot => by
    rw [execDue]
    split
    · rw [execDue_pending_eq, List.dropWhile_cons]
      simp only [decide_eq_true_eq, if_pos ‹t0 ≤ ts›]
    · rw [List.dropWhile_cons]
      simp only [decide_eq_true_eq, if_neg ‹¬t0 ≤ ts›]

theorem execDue_pending_later : ∀ (p : List (ℤ × Opp)) (ts : ℤ) (pb kb : RBook) (tot : Totals),
    p.Pairwise (fun a b => a.1 ≤ b.1) → ∀ x ∈ (execDue p ts pb kb tot).1, ts < x.1
  | [], _, _, _, _, _ => by simp [execDue]
  | (t0, o0) :: t, ts, pb, kb, tot, hp => by
    rcases List.pairwise_cons.mp hp with ⟨hh, ht⟩
    rw [execDue]
    split
    · exact execDue_pending_later t ts _ _ _ ht
    · intro x hx
      rcases List.mem_cons.mp hx with rfl | hxt
      · exact not_le.mp ‹¬t0 ≤ ts›
      · exact lt_of_lt_of_le (not_le.mp ‹¬t0 ≤ ts›) (hh x hxt)

theorem execDue_pending_sublist (p : List (ℤ × Opp)) (ts : ℤ) (pb kb : RBook) (tot : Totals) :
    List.Sublist (execDue p ts pb kb tot).1 p := by
  rw [execDue_pending_eq]
  exact List.dropWhile_sublist _

/-- C6 counterexample: after this log entry two opportunities are detected
(spreads 0.25 and 0.05), but only the single best one is pushed onto the
schedule — the other detected opportunity is discarded, contradicting "every
opportunity detected ... is pushed". -/
theorem c6_only_best_opportunity_scheduled :
    (find_opportunities (RBook.mk "P" [(-(11/20), 5)] [(2/5, 5)])
        (RBook.mk "K" [(-(9/20), 5)] [(3/10, 5)]) 0) =
      [Opp.mk true 5 (1/4), Opp.mk false 5 (1/20)] ∧
    (delayStep 200 0
        (DelayState.mk (RBook.empty "P") (RBook.mk "K" [(-(9/20), 5)] [(3/10, 5)]) []
          (Totals.mk 0 0 0 0))
        (LogEntry.mk 1000 (.pm (.book [(11/20, 5)] [(2/5, 5)])))).pending =
      [((1200 : ℤ), Opp.mk true 5 (1/4))] ∧
    ((1200 : ℤ), Opp.mk false 5 (1/20)) ∉ [((1200 : ℤ), Opp.mk true 5 (1/4))] := by
  refine ⟨?_, ?_, by simp⟩
  · norm_num [find_opportunities, RBook.lowest_ask, RBook.highest_bid, getKD, getK_cons,
      sortOpps, insOpp, min_def]
  · norm_num [delayStep, execDue, applyLogUpd, robust_update_polymarket_order_book,
      RBook.update_book_level, RBook.empty, setK_nil, eps, find_opportunities,
      RBook.lowest_ask, RBook.highest_bid, getKD, getK_cons, sortOpps, insOpp, min_def,
      pushPending]

/-- C6 (amended): in the delay-mode backtester, at each log entry the due
scheduled trades — exactly those whose execution timestamp is at most the
entry's timestamp — are popped and evaluated against the books before the
entry's delta is applied; then, among the opportunities detected after applying
the delta, only the best one is pushed, with execution timestamp
`entry.ts + delay`; the queue stays ordered by execution timestamp, and at end
of log the run stops with pending trades never executed or credited. -/
theorem c6_delay_scheduling (delay : ℤ) (θ : ℚ) (st : DelayState) (e : LogEntry) :
    (∀ x, x ∈ (delayStep delay θ st e).pending ↔
      (x ∈ (execDue st.pending e.ts st.pb st.kb st.totals).1 ∨
        (x.1 = e.ts + delay ∧
          (find_opportunities
              (applyLogUpd (execDue st.pending e.ts st.pb st.kb st.totals).2.1
                (execDue st.pending e.ts st.pb st.kb st.totals).2.2.1 e.upd).1
              (applyLogUpd (execDue st.pending e.ts st.pb st.kb st.totals).2.1
                (execDue st.pending e.ts st.pb st.kb st.totals).2.2.1 e.upd).2
              θ).head? = some x.2))) ∧
    ((execDue st.pending e.ts st.pb st.kb st.totals).1 =
      st.pending.dropWhile (fun x => decide (x.1 ≤ e.ts))) ∧
    (st.pending.Pairwise (fun a b => a.1 ≤ b.1) →
      (∀ x ∈ (execDue st.pending e.ts st.pb st.kb st.totals).1, e.ts < x.1) ∧
      ((delayStep delay θ st e).pending).Pairwise (fun a b => a.1 ≤ b.1)) ∧
    (delayStep delay θ st e).totals =
      (execDue st.pending e.ts st.pb st.kb st.totals).2.2.2 ∧
    runDelay delay θ st [] = st := by
  refine ⟨?_, execDue_pending_eq _ _ _ _ _, ?_, rfl, rfl⟩
  · intro x
    rw [delayStep]
    rcases hop : find_opportunities
        (applyLogUpd (execDue st.pending e.ts st.pb st.kb st.totals).2.1
          (execDue st.pending e.ts st.pb st.kb st.totals).2.2.1 e.upd).1
        (applyLogUpd (execDue st.pending e.ts st.pb st.kb st.totals).2.1
          (execDue st.pending e.ts st.pb st.kb st.totals).2.2.1 e.upd).2 θ with _ | ⟨best, rest⟩
    · simp only [hop]
      simp
    · simp only [hop]
      rw [mem_pushPending]
      constructor
      · rintro (rfl | hx)
        · exact Or.inr ⟨rfl, rfl⟩
        · exact Or.inl hx
      · rintro (hx | ⟨hts, hhd⟩)
        · exact Or.inr hx
        · left
          obtain ⟨x1, x2⟩ := x
          simp only [List.head?_cons, Option.some.injEq] at hhd
          simp only at hts
          subst hts
          subst hhd
          rfl
  · intro hp
    refine ⟨execDue_pending_later _ _ _ _ _ hp, ?_⟩
    have hrem : ((execDue st.pending e.ts st.pb st.kb st.totals).1).Pairwise
        (fun a b => a.1 ≤ b.1) := hp.sublist (execDue_pending_sublist _ _ _ _ _)
    rw [delayStep]
    rcases hop : find_opportunities
        (applyLogUpd (execDue st.pending e.ts st.pb st.kb st.totals).2.1
          (execDue st.pending e.ts st.pb st.kb st.totals).2.2.1 e.upd).1
        (applyLogUpd (execDue st.pending e.ts st.pb st.kb st.totals).2.1
          (execDue st.pending e.ts st.pb st.kb st.totals).2.2.1 e.upd).2 θ with _ | ⟨best, rest⟩
    · simpa [hop] using hrem
    · simp only [hop]
      exact pushPending_pairwise hrem

/-- Witness for `c6_delay_scheduling`: at a concrete state and log entry, the
best detected opportunity is scheduled at `1000 + 200`, and the queue stays
sorted. -/
theorem c6_delay_scheduling_witness :
    ((1200 : ℤ), Opp.mk true 5 (1/4)) ∈
      (delayStep 200 0
        (DelayState.mk (RBook.empty "Q") (RBook.mk "L" [(-(9/20), 5)] [(3/10, 5)]) []
          (Totals.mk 0 0 0 0))
        (LogEntry.mk 1000 (.pm (.book [(11/20, 5)] [(2/5, 5)])))).pending ∧
    ((delayStep 200 0
        (DelayState.mk (RBook.empty "Q") (RBook.mk "L" [(-(9/20), 5)] [(3/10, 5)]) []
          (Totals.mk 0 0 0 0))
        (LogEntry.mk 1000 (.pm (.book [(11/20, 5)] [(2/5, 5)])))).pending).Pairwise
      (fun a b => a.1 ≤ b.1) := by
  constructor
  · refine ((c6_delay_scheduling 200 0
      (DelayState.mk (RBook.empty "Q") (RBook.mk "L" [(-(9/20), 5)] [(3/10, 5)]) []
        (Totals.mk 0 0 0 0))
      (LogEntry.mk 1000 (.pm (.book [(11/20, 5)] [(2/5, 5)])))).1 _).mpr
      (Or.inr ⟨by norm_num, ?_⟩)
    norm_num [execDue, applyLogUpd, robust_update_polymarket_order_book,
      RBook.update_book_level, RBook.empty, setK_nil, eps, find_opportunities,
      RBook.lowest_ask, RBook.highest_bid, getKD, getK_cons, sortOpps, insOpp, min_def]
  · exact ((c6_delay_scheduling 200 0
      (DelayState.mk (RBook.empty "Q") (RBook.mk "L" [(-(9/20), 5)] [(3/10, 5)]) []
        (Totals.mk 0 0 0 0))
      (LogEntry.mk 1000 (.pm (.book [(11/20, 5)] [(2/5, 5)])))).2.2.1 (by simp)).2

end Arb
